import Mathlib

/-!
# hand-to-hand-optimize-go: the `/test` handler of `main.go`

A shallow embedding of `main.go` (`handler`, `doSomeThingOne`, `genSomeBytes`) together with the
parts of the Go standard library the handler goes through (`bytes.Buffer`, `io.ReadAll`,
the conversions `float64(int)` and `int(float64)`, `math.Log2`).

Conventions.

* A Go `byte` is a natural number below 256; 8-bit arithmetic is written with an explicit `% 256`.
* A Go `string` and a `[]byte` are lists of bytes.
* `int` is the 64-bit signed integer of the usual server platforms. The loop counters of the
  program start at 0 or 1 and only grow while they are below an `int` bound, so they never wrap;
  they are naturals, compared with the `int` bound after a cast.
* The effects of `handler` on the outside world (calls on the `http.ResponseWriter`, on the
  logger, and of the two helper functions) are recorded, in program order, in a list of events.
  The statements of `doSomeThingOne` run on that list: the loops carry the events so far among
  their variables, so that what the function does to them is read off its embedding.
-/

namespace GoServer

/-! ## Loops -/

/-- The Go statement `for ; cond; post { body }` over the variables `σ`: `next` is the body
followed by the post statement, `variant` a natural number that every iteration lowers. -/
structure ForLoop (σ : Type) where
  cond : σ → Bool
  next : σ → σ
  variant : σ → Nat
  decreasing : ∀ s, cond s = true → variant (next s) < variant s

/-- Execution of a loop from the variables `s`: the variables when the condition fails. -/
def ForLoop.run {σ : Type} (l : ForLoop σ) (s : σ) : σ :=
  if _h : l.cond s = true then l.run (l.next s) else s
termination_by l.variant s
decreasing_by exact l.decreasing s _h

/-! ## Bytes, errors, `bytes.Buffer` -/

/-- A `[]byte`, or the bytes of a `string`. -/
abbrev Bytes := List Nat

/-- The conversion `byte(n)` of a non-negative `int`. -/
def toByte (n : Nat) : Nat := n % 256

/-- The sum `a + b` of two values of type `byte`. -/
def byteAdd (a b : Nat) : Nat := (a + b) % 256

/-- A Go `error`: `io.EOF`, or any other error, known by its text. -/
inductive GoError where
  | EOF
  | other (text : Bytes)
deriving DecidableEq, Repr

/-- The method `err.Error()`; the text of `io.EOF` is "EOF". -/
def GoError.Error : GoError → Bytes
  | .EOF => [69, 79, 70]
  | .other text => text

/-- A `bytes.Buffer`: the bytes `buf[off:]` are the unread ones. -/
structure Buffer where
  buf : Bytes
  off : Nat
deriving DecidableEq, Repr

/-- The zero value `var buff bytes.Buffer`. -/
def Buffer.zero : Buffer := { buf := [], off := 0 }

/-- The unread portion `b.buf[b.off:]`, what `b.Bytes()` returns. -/
def Buffer.unread (b : Buffer) : Bytes := b.buf.drop b.off

/-- The method `b.Write(p)`: appends `p` to the buffer (it returns `len(p), nil`). -/
def Buffer.Write (b : Buffer) (p : Bytes) : Buffer := { b with buf := b.buf ++ p }

/-- The method `b.Read(p)` for a `p` of length `n`: the bytes copied into `p`, the error and
the buffer afterwards. An empty buffer is reset and answers `io.EOF` (`nil` when `len(p) == 0`);
otherwise `copy(p, b.buf[b.off:])` bytes are consumed and the error is `nil`. -/
def Buffer.Read (b : Buffer) (n : Nat) : Bytes × Option GoError × Buffer :=
  if b.buf.length ≤ b.off then
    if n = 0 then ([], none, Buffer.zero) else ([], some GoError.EOF, Buffer.zero)
  else
    let data := (b.buf.drop b.off).take n
    (data, none, { b with off := b.off + data.length })

/-! ## `genSomeBytes` -/

/-- Variables of the loop of `genSomeBytes`. -/
structure GenVars where
  i : Nat
  buff : Buffer

/-- The expression `'0' + byte(i%10)`, a sum of two bytes; `'0'` is 48. -/
def digitAt (i : Nat) : Nat := byteAdd 48 (toByte (i % 10))

/-- The loop `for i := 1; i < 20000; i++ { buff.Write([]byte{'0' + byte(i%10)}) }`. -/
def genSomeBytesLoop : ForLoop GenVars where
  cond s := decide (s.i < 20000)
  next s := { i := s.i + 1, buff := s.buff.Write [digitAt s.i] }
  variant s := 20000 - s.i
  decreasing := by
    intro s h
    have : s.i < 20000 := of_decide_eq_true h
    show 20000 - (s.i + 1) < 20000 - s.i
    omega

/-- The statement `return &buff` of `genSomeBytes`. -/
def GenVars.ret (s : GenVars) : Buffer := s.buff

/-- Function `genSomeBytes`: a fresh buffer, filled by the loop. -/
def genSomeBytes : Buffer :=
  GenVars.ret (genSomeBytesLoop.run { i := 1, buff := Buffer.zero })

/-! ## The runtime, `io.ReadAll` -/

/-- A value of type `float64` as far as the program meets one: not-a-number, minus infinity,
or a finite value, which is a rational number. -/
inductive F64 where
  | nan
  | negInf
  | fin (q : ℚ)
deriving DecidableEq

/-- What the Go specification and the documentation of the library leave to the
implementation. -/
structure Runtime where
  /-- Capacity that `append` gives a full slice of capacity `c` when it reallocates. -/
  growslice : Nat → Nat
  growslice_gt : ∀ c, c < growslice c
  /-- The float64 `math.Log(frac)*(1/Ln2) + float64(exp)` that `math.Log2(x)` returns for a
  positive `x` that is not a power of two, as a function of `x`. -/
  log2Inexact : Nat → ℚ
  /-- "Log2 returns the binary logarithm of x": on the float64 of an `int`, at most `2 ^ 63`,
  the float64 returned lies within `5 / 2 ^ 50` of the binary logarithm. The result is below
  64, where the last rounding, of the sum, moves it by at most `2 ^ -48 = 4 / 2 ^ 50`; the
  errors of `math.Log` (below one unit in the last place) and of the product by `1/Ln2`, on a
  value between -1 and 0, add less than `1 / 2 ^ 50`. -/
  log2Inexact_accurate : ∀ x : Nat, 0 < x → x ≤ 2 ^ 63 →
    |((log2Inexact x : ℚ) : ℝ) - Real.logb 2 x| ≤ 5 / 2 ^ 50
  /-- The result of `int(f)` when `f` is not-a-number, infinite or out of the range of `int`:
  "the result value is implementation-dependent". -/
  intOfUnrepresentable : F64 → Int

/-- A read that returns no error with a non-empty `p` consumes at least one byte, at most
`len(p)`, from the front of the unread bytes. -/
theorem Buffer.Read_nil {b r : Buffer} {n : Nat} {data : Bytes}
    (h : b.Read n = (data, none, r)) (hn : 0 < n) :
    data.length ≤ n ∧ r.unread.length < b.unread.length ∧ b.unread = data ++ r.unread := by
  unfold Buffer.Read at h
  split at h
  · split at h
    · omega
    · simp at h
  · rename_i hlt
    simp only [Prod.mk.injEq, true_and] at h
    obtain ⟨hd, hr⟩ := h
    subst hr
    subst hd
    refine ⟨?_, ?_, ?_⟩
    · simp only [List.length_take]
      omega
    · simp only [Buffer.unread, List.length_take, List.length_drop]
      omega
    · show List.drop b.off b.buf = List.take n (List.drop b.off b.buf)
        ++ List.drop (b.off + (List.take n (List.drop b.off b.buf)).length) b.buf
      rw [← List.drop_drop]
      by_cases hle : n ≤ (List.drop b.off b.buf).length
      · rw [List.length_take, Nat.min_eq_left hle, List.take_append_drop]
      · rw [List.take_of_length_le (by omega), List.drop_length, List.append_nil]

/-- The loop of `io.ReadAll` on a `*bytes.Buffer`, with `b` the slice read so far and `cap` its
capacity (`b := make([]byte, 0, 512)` at the start):
`n, err := r.Read(b[len(b):cap(b)]); b = b[:len(b)+n]`; an error ends the loop, `io.EOF` being
reported as `nil`; a full slice is reallocated by `append(b, 0)[:len(b)]`. -/
def readAllLoop (rt : Runtime) (r : Buffer) (b : Bytes) (cap : Nat) (hcap : b.length < cap) :
    Bytes × Option GoError :=
  match hr : r.Read (cap - b.length) with
  | (data, some err, _) => (b ++ data, if err = GoError.EOF then none else some err)
  | (data, none, r') =>
    if hfull : (b ++ data).length = cap then
      readAllLoop rt r' (b ++ data) (rt.growslice cap) (hfull ▸ rt.growslice_gt cap)
    else
      readAllLoop rt r' (b ++ data) cap (by
        have := (Buffer.Read_nil hr (by omega)).1
        simp only [List.length_append] at hfull ⊢
        omega)
termination_by r.unread.length
decreasing_by
  all_goals exact (Buffer.Read_nil hr (by omega)).2.1

/-- Function `ioutil.ReadAll(buff)`, which calls `io.ReadAll`. -/
def ReadAll (rt : Runtime) (r : Buffer) : Bytes × Option GoError :=
  readAllLoop rt r [] 512 (by decide)

/-! ## `float64(int)`, `math.Log2`, `int(float64)` -/

/-- The float64 nearest to the natural number `m`, ties to even: `m` itself below `2 ^ 53`,
otherwise `m` rounded to its 53 leading bits (`e` low bits are dropped). Every int is far below
the overflow threshold `2 ^ 1024`. -/
def roundToFloat64 (m : Nat) : Nat :=
  if m < 2 ^ 53 then m
  else
    let e := Nat.log2 m - 52
    let q := m / 2 ^ e
    let rem := m % 2 ^ e
    let half := 2 ^ (e - 1)
    if rem < half then q * 2 ^ e
    else if rem = half ∧ q % 2 = 0 then q * 2 ^ e
    else (q + 1) * 2 ^ e

/-- The conversion `float64(n)` of an `int`. Its value is an integer, and the float64 is carried
as that integer. -/
def float64 (n : Int) : Int :=
  if 0 ≤ n then (roundToFloat64 n.toNat : Int) else -(roundToFloat64 (-n).toNat : Int)

/-- Function `math.Frexp(x)` on a positive integer-valued `x`: `frac` in `[1/2, 1)` and `exp`
with `x = frac * 2 ^ exp`. -/
def Frexp (x : Nat) : ℚ × Nat :=
  ((x : ℚ) / 2 ^ (Nat.log2 x + 1), Nat.log2 x + 1)

/-- Function `math.Log2(x)` on an integer-valued `x`: not-a-number below zero, minus infinity at
zero, and on a positive `x`
`frac, exp := Frexp(x); if frac == 0.5 { return float64(exp - 1) };
return Log(frac)*(1/Ln2) + float64(exp)`. -/
def Log2 (rt : Runtime) (x : Int) : F64 :=
  if x < 0 then F64.nan
  else if x = 0 then F64.negInf
  else
    let fe := Frexp x.toNat
    if fe.1 = 1 / 2 then F64.fin (((fe.2 : Int) - 1 : Int) : ℚ)
    else F64.fin (rt.log2Inexact x.toNat)

/-- The conversion `int(f)` of a float64: the fraction is discarded (truncation towards zero);
when the result does not fit an `int` it is implementation-dependent. -/
def intOfFloat64 (rt : Runtime) : F64 → Int
  | F64.fin q =>
    let t := Int.tdiv q.num q.den
    if -(2 : Int) ^ 63 ≤ t ∧ t < (2 : Int) ^ 63 then t else rt.intOfUnrepresentable (F64.fin q)
  | f => rt.intOfUnrepresentable f

/-! ## Events -/

/-- The type `url.Values` of `r.Form`: keys with their values. -/
abbrev Form := List (Bytes × List Bytes)

/-- What `handler` does to the outside world, one event per call. -/
inductive Event where
  /-- A call `w.WriteHeader(code)`. -/
  | WriteHeader (code : Nat)
  /-- A call `w.Write(b)`. -/
  | Write (b : Bytes)
  /-- A call `log.Println(form)`. -/
  | Println (form : Form)
  /-- A call `doSomeThingOne(times)` that has returned, with the number of outer iterations and
  of executions of the inner body it made. -/
  | doSomeThingOne (times : Int) (outerRuns bodyRuns : Nat)
  /-- A call `genSomeBytes()`, with the buffer it returned. -/
  | genSomeBytes (buff : Buffer)
  /-- A call `ioutil.ReadAll(buff)`. -/
  | ReadAll (buff : Buffer)
deriving DecidableEq

/-! ## `doSomeThingOne` -/

/-- Variables of the inner loop of `doSomeThingOne`; `bodyRuns` counts the executions of the
(empty) inner body. -/
structure InnerVars where
  j : Nat
  bodyRuns : Nat
  /-- The events so far, within reach of the statements of the body. -/
  events : List Event

/-- Variables of the outer loop of `doSomeThingOne`; `i` is also the number of outer iterations
executed so far. -/
structure OuterVars where
  i : Nat
  bodyRuns : Nat
  /-- The events so far, within reach of the statements of the body. -/
  events : List Event

/-- The loop `for j := 0; j < inner; j++ { }`: the body holds no statement, an iteration counts
one execution of it and adds one to `j`. -/
def innerLoop (inner : Int) : ForLoop InnerVars where
  cond s := decide ((s.j : Int) < inner)
  next s := { j := s.j + 1, bodyRuns := s.bodyRuns + 1, events := s.events }
  variant s := (inner - s.j).toNat
  decreasing := by
    intro s h
    have : (s.j : Int) < inner := of_decide_eq_true h
    show (inner - ((s.j + 1 : Nat) : Int)).toNat < (inner - s.j).toNat
    omega

/-- The end of one iteration of the outer loop: the inner loop has ended with the variables `t`,
the post statement adds one to `i`. -/
def OuterVars.afterInner (s : OuterVars) (t : InnerVars) : OuterVars :=
  { i := s.i + 1, bodyRuns := t.bodyRuns, events := t.events }

/-- The loop `for i := 0; i < times; i++ { for j := 0; j < inner; j++ { } }`: the body is the
inner loop, started with `j := 0` on the events so far. -/
def outerLoop (times inner : Int) : ForLoop OuterVars where
  cond s := decide ((s.i : Int) < times)
  next s :=
    s.afterInner ((innerLoop inner).run { j := 0, bodyRuns := s.bodyRuns, events := s.events })
  variant s := (times - s.i).toNat
  decreasing := by
    intro s h
    have : (s.i : Int) < times := of_decide_eq_true h
    show (times - ((s.i + 1 : Nat) : Int)).toNat < (times - s.i).toNat
    omega

/-- The declaration `var inner = int(math.Log2(float64(times)))`. -/
def innerBound (rt : Runtime) (times : Int) : Int :=
  intOfFloat64 rt (Log2 rt (float64 times))

/-- Function `doSomeThingOne(times)`, called when the events so far are `w`. The Go function
returns nothing; the model returns the variables at the end of the outer loop: the number of
outer iterations, the number of executions of the inner body, and the events. -/
def doSomeThingOne (rt : Runtime) (times : Int) (w : List Event) : OuterVars :=
  (outerLoop times (innerBound rt times)).run { i := 0, bodyRuns := 0, events := w }

/-- The events once a call `doSomeThingOne(times)` has returned with the variables `s`: those
the function left, then the record of the call. -/
def OuterVars.returned (times : Int) (s : OuterVars) : List Event :=
  s.events ++ [Event.doSomeThingOne times s.i s.bodyRuns]

/-! ## `handler` -/

/-- An `*http.Request` as far as `handler` looks at it: the error that `r.ParseForm()` returns
(`none` is `nil`) and the value of `r.Form` afterwards. -/
structure Request where
  parseErr : Option GoError
  Form : Form

/-- The end of `handler`, from the results `b, err` of `ioutil.ReadAll(buff)` on:
`if nil != err { w.Write([]byte(err.Error())); return }; w.Write(b)`. -/
def writeResult : Bytes × Option GoError → List Event
  | (_, some err) => [Event.Write err.Error]
  | (b, none) => [Event.Write b]

/-- Function `handler(w, r)`: the events of one invocation, in program order. The call
`doSomeThingOne(10000)` runs on the events so far, the one of `log.Println(r.Form)`. -/
def handler (rt : Runtime) (r : Request) : List Event :=
  match r.parseErr with
  | some err => [Event.Write err.Error]
  | none =>
    OuterVars.returned 10000 (doSomeThingOne rt 10000 [Event.Println r.Form])
      ++ [Event.genSomeBytes genSomeBytes, Event.ReadAll genSomeBytes]
      ++ writeResult (ReadAll rt genSomeBytes)

/-- The same handler with the statement `doSomeThingOne(10000)` removed. -/
def handlerWithoutBusyLoop (rt : Runtime) (r : Request) : List Event :=
  match r.parseErr with
  | some err => [Event.Write err.Error]
  | none =>
    [Event.Println r.Form]
      ++ [Event.genSomeBytes genSomeBytes, Event.ReadAll genSomeBytes]
      ++ writeResult (ReadAll rt genSomeBytes)

/-! ## What a client observes -/

/-- The arguments of the calls `w.Write`, in order. -/
def writes : List Event → List Bytes
  | [] => []
  | Event.Write b :: es => b :: writes es
  | _ :: es => writes es

/-- The response body: the written bytes, concatenated. -/
def body (es : List Event) : Bytes := (writes es).flatten

/-- The status codes set explicitly, by calls `w.WriteHeader`. -/
def statusCodes : List Event → List Nat
  | [] => []
  | Event.WriteHeader c :: es => c :: statusCodes es
  | _ :: es => statusCodes es

/-- The response a client receives: explicit status codes and body. -/
def response (es : List Event) : List Nat × Bytes := (statusCodes es, body es)

/-- The values logged by `log.Println`. -/
def logged : List Event → List Form
  | [] => []
  | Event.Println f :: es => f :: logged es
  | _ :: es => logged es

/-- Whether an event is a call of `doSomeThingOne` or of `genSomeBytes`. -/
def Event.isHelperCall : Event → Bool
  | Event.doSomeThingOne _ _ _ => true
  | Event.genSomeBytes _ => true
  | _ => false

/-- Whether an event is a call of `doSomeThingOne`. -/
def Event.isBusyLoop : Event → Bool
  | Event.doSomeThingOne _ _ _ => true
  | _ => false

/-! ## A concrete runtime and concrete requests -/

/-- The sum of `u ^ (i + 1) / (i + 1)` for `i < n`, the start of the series of
`-log (1 - u)`. -/
def logSeries (u : ℚ) (n : Nat) : ℚ := ∑ i in Finset.range n, u ^ (i + 1) / ((i : ℚ) + 1)

/-- A binary logarithm computed in exact rational arithmetic: with `k` the exponent of `x`, it
is `k + log (x / 2 ^ k) / log 2`, each logarithm from 52 terms of its series. -/
def approxLog2 (x : Nat) : ℚ :=
  (Nat.log2 x : ℚ) + logSeries (((x : ℚ) - 2 ^ Nat.log2 x) / x) 52 / logSeries (1 / 2) 52

/-- Fifty-two terms of the series give `-log (1 - u)` up to `2 ^ -52` for `u` in `[0, 1/2]`. -/
theorem logSeries_accurate (u : ℚ) (h0 : 0 ≤ u) (h1 : u ≤ 1 / 2) :
    |((logSeries u 52 : ℚ) : ℝ) + Real.log (1 - (u : ℝ))| ≤ 1 / 2 ^ 52 := by
  have hu0 : (0 : ℝ) ≤ (u : ℝ) := by exact_mod_cast h0
  have hu1 : (u : ℝ) ≤ 1 / 2 := by
    have h : ((u : ℚ) : ℝ) ≤ ((1 / 2 : ℚ) : ℝ) := Rat.cast_le.mpr h1
    simpa using h
  have habs : |(u : ℝ)| = u := abs_of_nonneg hu0
  have h := Real.abs_log_sub_add_sum_range_le (show |(u : ℝ)| < 1 by rw [habs]; linarith) 52
  have hcast : ((logSeries u 52 : ℚ) : ℝ) =
      ∑ i in Finset.range 52, (u : ℝ) ^ (i + 1) / ((i : ℝ) + 1) := by
    unfold logSeries
    push_cast
    rfl
  rw [hcast]
  refine le_trans h ?_
  rw [habs]
  have hp : (u : ℝ) ^ (52 + 1) ≤ (1 / 2) ^ (52 + 1) := pow_le_pow_left₀ hu0 hu1 _
  have hd : (1 / 2 : ℝ) ≤ 1 - u := by linarith
  calc (u : ℝ) ^ (52 + 1) / (1 - u) ≤ (1 / 2) ^ (52 + 1) / (1 / 2) :=
        div_le_div₀ (by positivity) hp (by norm_num) hd
    _ = 1 / 2 ^ 52 := by norm_num

/-- The computed logarithm is within `2 ^ -50` of the binary logarithm. -/
theorem approxLog2_accurate (x : Nat) (hx : 0 < x) :
    |((approxLog2 x : ℚ) : ℝ) - Real.logb 2 x| ≤ 1 / 2 ^ 50 := by
  have hx0 : x ≠ 0 := Nat.pos_iff_ne_zero.mp hx
  have hxR : (0 : ℝ) < (x : ℝ) := Nat.cast_pos.mpr hx
  have hlo : 2 ^ Nat.log2 x ≤ x := Nat.log2_self_le hx0
  have hhi : x < 2 ^ (Nat.log2 x + 1) := Nat.lt_log2_self
  have hloR : (2 : ℝ) ^ Nat.log2 x ≤ x := by exact_mod_cast hlo
  have hhiR : (x : ℝ) < 2 * 2 ^ Nat.log2 x := by
    have : (x : ℝ) < (2 : ℝ) ^ (Nat.log2 x + 1) := by exact_mod_cast hhi
    rwa [pow_succ, mul_comm] at this
  have hP : (0 : ℝ) < (2 : ℝ) ^ Nat.log2 x := by positivity
  -- the argument of the series
  set u : ℚ := ((x : ℚ) - 2 ^ Nat.log2 x) / x with hu
  have huR : (u : ℝ) = ((x : ℝ) - 2 ^ Nat.log2 x) / x := by
    rw [hu]
    push_cast
    rfl
  have hu0 : 0 ≤ u := by
    have : (0 : ℝ) ≤ (u : ℝ) := by
      rw [huR]
      exact div_nonneg (by linarith) hxR.le
    exact_mod_cast this
  have hu1 : u ≤ 1 / 2 := by
    have : (u : ℝ) ≤ ((1 / 2 : ℚ) : ℝ) := by
      rw [huR, div_le_iff₀ hxR]
      push_cast
      linarith
    exact_mod_cast this
  have h1u : 1 - (u : ℝ) = 2 ^ Nat.log2 x / x := by
    rw [huR]
    field_simp
  -- the two series
  have hA := logSeries_accurate u hu0 hu1
  have hB := logSeries_accurate (1 / 2) (by norm_num) (le_refl _)
  set A : ℝ := ((logSeries u 52 : ℚ) : ℝ) with hAdef
  set B : ℝ := ((logSeries (1 / 2) 52 : ℚ) : ℝ) with hBdef
  set b : ℝ := Real.log 2 with hb
  have hb1 : (0.6931471803 : ℝ) < b := Real.log_two_gt_d9
  have hlogx : Real.log x = Real.log (x / 2 ^ Nat.log2 x) + Nat.log2 x * b := by
    rw [Real.log_div hxR.ne' hP.ne', Real.log_pow]
    ring
  set a : ℝ := Real.log (x / 2 ^ Nat.log2 x) with ha
  have ha0 : 0 ≤ a := Real.log_nonneg (by rw [le_div_iff₀ hP]; linarith)
  have hab : a ≤ b := by
    rw [ha, hb]
    exact Real.log_le_log (by positivity) (by rw [div_le_iff₀ hP]; linarith)
  have hA' : |A - a| ≤ 1 / 2 ^ 52 := by
    have : Real.log (1 - (u : ℝ)) = -a := by
      rw [h1u, ha, ← Real.log_inv, inv_div]
    rw [this] at hA
    simpa [sub_eq_add_neg] using hA
  have hB' : |B - b| ≤ 1 / 2 ^ 52 := by
    have : Real.log (1 - ((1 / 2 : ℚ) : ℝ)) = -b := by
      rw [hb, ← Real.log_inv]
      norm_num
    rw [this] at hB
    simpa [sub_eq_add_neg] using hB
  have hBpos := abs_le.mp hB'
  have hBhalf : (1 / 2 : ℝ) < B := by
    have : (1 : ℝ) / 2 ^ 52 < 0.1 := by norm_num
    linarith [hBpos.1]
  have hlogb : Real.logb 2 x = Nat.log2 x + a / b := by
    rw [← Real.log_div_log, hlogx]
    field_simp
    ring
  have hcast : ((approxLog2 x : ℚ) : ℝ) = Nat.log2 x + A / B := by
    unfold approxLog2
    push_cast
    rfl
  rw [hcast, hlogb]
  have hbpos : 0 < b := by linarith
  have hBpos' : 0 < B := by linarith
  have key : A / B - a / b = ((A - a) * b - a * (B - b)) / (B * b) := by
    field_simp
    ring
  have hnum : |(A - a) * b - a * (B - b)| ≤ 2 * b * (1 / 2 ^ 52) := by
    have h1 : |(A - a) * b| ≤ 1 / 2 ^ 52 * b := by
      rw [abs_mul, abs_of_pos hbpos]
      exact mul_le_mul_of_nonneg_right hA' hbpos.le
    have h2 : |a * (B - b)| ≤ b * (1 / 2 ^ 52) := by
      rw [abs_mul, abs_of_nonneg ha0]
      exact mul_le_mul hab hB' (abs_nonneg _) hbpos.le
    calc |(A - a) * b - a * (B - b)| ≤ |(A - a) * b| + |a * (B - b)| := abs_sub _ _
      _ ≤ 1 / 2 ^ 52 * b + b * (1 / 2 ^ 52) := add_le_add h1 h2
      _ = 2 * b * (1 / 2 ^ 52) := by ring
  have : (Nat.log2 x : ℝ) + A / B - (Nat.log2 x + a / b) = A / B - a / b := by ring
  rw [this, key, abs_div, abs_of_pos (mul_pos hBpos' hbpos), div_le_iff₀ (mul_pos hBpos' hbpos)]
  refine le_trans hnum ?_
  have hBb : (1 / 2 : ℝ) * b ≤ B * b := mul_le_mul_of_nonneg_right hBhalf.le hbpos.le
  have e : (1 : ℝ) / 2 ^ 50 * (1 / 2 * b) = 2 * b * (1 / 2 ^ 52) := by
    norm_num
    ring
  have e' : (1 : ℝ) / 2 ^ 50 * (1 / 2 * b) ≤ 1 / 2 ^ 50 * (B * b) :=
    mul_le_mul_of_nonneg_left hBb (by positivity)
  linarith

/-- A runtime: `append` doubles the capacity, the inexact logarithm is the one computed in
rational arithmetic, and a float64 that does not fit converts to the least `int`. -/
def sampleRuntime : Runtime where
  growslice c := 2 * c + 1
  growslice_gt c := by show c < 2 * c + 1; omega
  log2Inexact := approxLog2
  log2Inexact_accurate x hx _ :=
    le_trans (approxLog2_accurate x hx) (by norm_num)
  intOfUnrepresentable _ := -(2 : Int) ^ 63

/-- The request `GET /test?x=1`: parsing succeeds, the form holds `x = ["1"]`. -/
def sampleRequest : Request := { parseErr := none, Form := [([120], [[49]])] }

/-- Another request that parses, `GET /test?y=2`. -/
def otherRequest : Request := { parseErr := none, Form := [([121], [[50]])] }

/-- A request whose parsing fails with an error of text "bad". -/
def badRequest : Request := { parseErr := some (GoError.other [98, 97, 100]), Form := [] }

/-! ## Loops: unfolding and termination -/

theorem ForLoop.run_of_cond {σ : Type} (l : ForLoop σ) (s : σ) (h : l.cond s = true) :
    l.run s = l.run (l.next s) := by
  rw [ForLoop.run, dif_pos h]

theorem ForLoop.run_of_not_cond {σ : Type} (l : ForLoop σ) (s : σ) (h : l.cond s = false) :
    l.run s = s := by
  rw [ForLoop.run, dif_neg (by simp [h])]

/-- As long as the condition holds, the run goes through the iterates of `next`. -/
theorem ForLoop.run_iterate {σ : Type} (l : ForLoop σ) (k : Nat) (s : σ)
    (h : ∀ j, j < k → l.cond (l.next^[j] s) = true) : l.run s = l.run (l.next^[k] s) := by
  induction k generalizing s with
  | zero => rfl
  | succ k ih =>
    rw [l.run_of_cond s (h 0 (Nat.succ_pos k)), Function.iterate_succ_apply]
    exact ih (l.next s) (fun j hj => by
      have := h (j + 1) (Nat.succ_lt_succ hj)
      rwa [Function.iterate_succ_apply] at this)

/-- A run that finds the condition false after exactly `k` iterations ends there. -/
theorem ForLoop.run_eq_iterate {σ : Type} (l : ForLoop σ) (k : Nat) (s : σ)
    (h : ∀ j, j < k → l.cond (l.next^[j] s) = true) (hk : l.cond (l.next^[k] s) = false) :
    l.run s = l.next^[k] s := by
  rw [l.run_iterate k s h, l.run_of_not_cond _ hk]

/-- Every loop ends: after some number `k` of iterations, at most the variant at the start,
the condition fails, and the run returns the variables of that moment. -/
theorem ForLoop.terminates {σ : Type} (l : ForLoop σ) (s : σ) :
    ∃ k, k ≤ l.variant s ∧ (∀ j, j < k → l.cond (l.next^[j] s) = true) ∧
      l.cond (l.next^[k] s) = false ∧ l.run s = l.next^[k] s := by
  obtain ⟨v, hv⟩ : ∃ v, l.variant s = v := ⟨_, rfl⟩
  induction v using Nat.strong_induction_on generalizing s with
  | _ v ih =>
    by_cases hc : l.cond s = true
    · obtain ⟨k, hk, hlt, hend, hrun⟩ :=
        ih (l.variant (l.next s)) (hv ▸ l.decreasing s hc) (l.next s) rfl
      refine ⟨k + 1, ?_, ?_, ?_, ?_⟩
      · have := l.decreasing s hc
        omega
      · intro j hj
        cases j with
        | zero => exact hc
        | succ j =>
          rw [Function.iterate_succ_apply]
          exact hlt j (Nat.lt_of_succ_lt_succ hj)
      · rwa [Function.iterate_succ_apply]
      · rw [l.run_of_cond s hc, Function.iterate_succ_apply, hrun]
    · have hc' : l.cond s = false := by simpa using hc
      exact ⟨0, Nat.zero_le _, fun j hj => absurd hj (Nat.not_lt_zero j), hc',
        l.run_of_not_cond s hc'⟩

/-! ## `genSomeBytes`: the bytes -/

theorem digitAt_eq (i : Nat) : digitAt i = 48 + i % 10 := by
  have : i % 10 < 10 := Nat.mod_lt i (by decide)
  unfold digitAt byteAdd toByte
  omega

theorem genSomeBytesLoop_iterate (k : Nat) :
    genSomeBytesLoop.next^[k] { i := 1, buff := Buffer.zero } =
      { i := 1 + k, buff := { buf := (List.range' 1 k).map digitAt, off := 0 } } := by
  induction k with
  | zero => rfl
  | succ k ih =>
    rw [Function.iterate_succ_apply', ih]
    show GenVars.mk (1 + k + 1) (Buffer.Write _ [digitAt (1 + k)]) = _
    simp only [Buffer.Write, List.range'_1_concat, List.map_append, List.map_cons, List.map_nil]
    rfl

theorem genSomeBytesLoop_cond_iterate (k : Nat) :
    genSomeBytesLoop.cond (genSomeBytesLoop.next^[k] { i := 1, buff := Buffer.zero }) =
      decide (1 + k < 20000) := by
  rw [genSomeBytesLoop_iterate]
  rfl

theorem genSomeBytesLoop_run (n : Nat) (hn : n = 19999) :
    GenVars.ret (genSomeBytesLoop.run { i := 1, buff := Buffer.zero }) =
      { buf := (List.range' 1 n).map digitAt, off := 0 } := by
  rw [genSomeBytesLoop.run_eq_iterate n, genSomeBytesLoop_iterate]
  · rfl
  · intro j hj
    rw [genSomeBytesLoop_cond_iterate]
    exact decide_eq_true (by omega)
  · rw [genSomeBytesLoop_cond_iterate]
    exact decide_eq_false (by omega)

/-- The loop of `genSomeBytes` runs its body 19999 times, for `i` from 1 to 19999. -/
theorem genSomeBytes_eq :
    genSomeBytes = { buf := (List.range' 1 19999).map digitAt, off := 0 } := by
  unfold genSomeBytes
  exact genSomeBytesLoop_run 19999 rfl

theorem genSomeBytes_unread : genSomeBytes.unread = (List.range' 1 19999).map digitAt := by
  rw [genSomeBytes_eq]
  rfl

theorem genSomeBytes_length : genSomeBytes.unread.length = 19999 := by
  rw [genSomeBytes_unread, List.length_map, List.length_range']

/-- The byte at the list index `k`, which is the 1-indexed position `k + 1`. -/
theorem genSomeBytes_getElem? (k : Nat) (hk : k < 19999) :
    genSomeBytes.unread[k]? = some (48 + (k + 1) % 10) := by
  rw [genSomeBytes_unread, List.getElem?_map, List.getElem?_range' 1 1 hk, Option.map_some',
    digitAt_eq, Nat.one_mul, Nat.add_comm 1 k]

/-! ## `io.ReadAll` on a buffer -/

/-- A read never answers an error other than `io.EOF`, and answers `io.EOF` with no data and
only when nothing is unread. -/
theorem Buffer.Read_some {b r : Buffer} {n : Nat} {data : Bytes} {err : GoError}
    (h : b.Read n = (data, some err, r)) : err = GoError.EOF ∧ data = [] ∧ b.unread = [] := by
  unfold Buffer.Read at h
  split at h
  · rename_i hlen
    split at h
    · simp at h
    · simp only [Prod.mk.injEq, Option.some.injEq] at h
      refine ⟨h.2.1.symm, h.1.symm, ?_⟩
      simp only [Buffer.unread, List.drop_eq_nil_iff]
      exact hlen
  · simp at h

/-- The loop of `io.ReadAll` returns all the unread bytes after those read before, and `nil`. -/
theorem readAllLoop_eq (rt : Runtime) (r : Buffer) (b : Bytes) (cap : Nat)
    (hcap : b.length < cap) : readAllLoop rt r b cap hcap = (b ++ r.unread, none) := by
  obtain ⟨m, hm⟩ : ∃ m, r.unread.length = m := ⟨_, rfl⟩
  induction m using Nat.strong_induction_on generalizing r b cap with
  | _ m ih =>
    unfold readAllLoop
    split
    · rename_i data err r' hr
      obtain ⟨he, hd, hu⟩ := Buffer.Read_some hr
      rw [he, hd, hu]
      rfl
    · rename_i data r' hr
      obtain ⟨_, hlt, hu⟩ := Buffer.Read_nil hr (by omega)
      split
      · rw [ih _ (hm ▸ hlt) _ _ _ _ rfl, hu, List.append_assoc]
      · rw [ih _ (hm ▸ hlt) _ _ _ _ rfl, hu, List.append_assoc]

/-- Function `ioutil.ReadAll` on a buffer returns its unread bytes and the error `nil`. -/
theorem ReadAll_eq (rt : Runtime) (r : Buffer) : ReadAll rt r = (r.unread, none) := by
  unfold ReadAll
  rw [readAllLoop_eq]
  rfl

/-! ## `doSomeThingOne`: the iterations -/

theorem innerLoop_iterate (inner : Int) (c k : Nat) (w : List Event) :
    (innerLoop inner).next^[k] { j := 0, bodyRuns := c, events := w } =
      { j := k, bodyRuns := c + k, events := w } := by
  induction k with
  | zero => rfl
  | succ k ih =>
    rw [Function.iterate_succ_apply', ih]
    rfl

/-- The inner loop executes its body `inner` times, not at all when `inner ≤ 0`, and leaves
the events as they were. -/
theorem innerLoop_run (inner : Int) (c : Nat) (w : List Event) :
    (innerLoop inner).run { j := 0, bodyRuns := c, events := w } =
      { j := inner.toNat, bodyRuns := c + inner.toNat, events := w } := by
  rw [(innerLoop inner).run_eq_iterate inner.toNat, innerLoop_iterate]
  · intro j hj
    rw [innerLoop_iterate]
    exact decide_eq_true (by show (j : Int) < inner; omega)
  · rw [innerLoop_iterate]
    exact decide_eq_false (by show ¬ ((inner.toNat : Int) < inner); omega)

theorem outerLoop_next (times inner : Int) (s : OuterVars) :
    (outerLoop times inner).next s =
      { i := s.i + 1, bodyRuns := s.bodyRuns + inner.toNat, events := s.events } := by
  show s.afterInner
    ((innerLoop inner).run { j := 0, bodyRuns := s.bodyRuns, events := s.events }) = _
  rw [innerLoop_run]
  rfl

theorem outerLoop_iterate (times inner : Int) (k : Nat) (w : List Event) :
    (outerLoop times inner).next^[k] { i := 0, bodyRuns := 0, events := w } =
      { i := k, bodyRuns := k * inner.toNat, events := w } := by
  induction k with
  | zero => simp
  | succ k ih =>
    rw [Function.iterate_succ_apply', ih, outerLoop_next, Nat.succ_mul]

/-- The outer loop executes its body `times` times, not at all when `times ≤ 0`, each
execution runs the inner body `inner` times, and the events are left as they were. -/
theorem outerLoop_run (times inner : Int) (w : List Event) :
    (outerLoop times inner).run { i := 0, bodyRuns := 0, events := w } =
      { i := times.toNat, bodyRuns := times.toNat * inner.toNat, events := w } := by
  rw [(outerLoop times inner).run_eq_iterate times.toNat, outerLoop_iterate]
  · intro j hj
    rw [outerLoop_iterate]
    exact decide_eq_true (by show (j : Int) < times; omega)
  · rw [outerLoop_iterate]
    exact decide_eq_false (by show ¬ ((times.toNat : Int) < times); omega)

theorem doSomeThingOne_eq (rt : Runtime) (times : Int) (w : List Event) :
    doSomeThingOne rt times w =
      { i := times.toNat, bodyRuns := times.toNat * (innerBound rt times).toNat,
        events := w } := by
  rw [doSomeThingOne, outerLoop_run]

/-! ## What a client observes of a list of events -/

theorem writes_append (es fs : List Event) : writes (es ++ fs) = writes es ++ writes fs := by
  induction es with
  | nil => rfl
  | cons e es ih =>
    cases e <;> simp [writes, ih]

theorem statusCodes_append (es fs : List Event) :
    statusCodes (es ++ fs) = statusCodes es ++ statusCodes fs := by
  induction es with
  | nil => rfl
  | cons e es ih =>
    cases e <;> simp [statusCodes, ih]

theorem logged_append (es fs : List Event) : logged (es ++ fs) = logged es ++ logged fs := by
  induction es with
  | nil => rfl
  | cons e es ih =>
    cases e <;> simp [logged, ih]

theorem response_append (es fs : List Event) :
    response (es ++ fs) = ((response es).1 ++ (response fs).1, (response es).2 ++ (response fs).2)
    := by
  simp only [response, body, writes_append, statusCodes_append, List.flatten_append]

/-! ## The inner bound -/

theorem log2_of_bounds {m k : Nat} (hlo : 2 ^ k ≤ m) (hhi : m < 2 ^ (k + 1)) :
    Nat.log2 m = k := by
  have hm : m ≠ 0 := Nat.pos_iff_ne_zero.mp (Nat.lt_of_lt_of_le (Nat.pow_pos (by decide)) hlo)
  have h1 : Nat.log2 m < k + 1 := (Nat.log2_lt hm).mpr hhi
  have h2 : ¬ Nat.log2 m < k := fun h => absurd ((Nat.log2_lt hm).mp h) (Nat.not_lt.mpr hlo)
  omega

/-- An integer below `2 ^ 53` is a float64. -/
theorem roundToFloat64_of_lt {m : Nat} (h : m < 2 ^ 53) : roundToFloat64 m = m := by
  unfold roundToFloat64
  rw [if_pos h]

/-- A power of two is a float64. -/
theorem roundToFloat64_two_pow (k : Nat) : roundToFloat64 (2 ^ k) = 2 ^ k := by
  by_cases h : 2 ^ k < 2 ^ 53
  · exact roundToFloat64_of_lt h
  · have hk : 53 ≤ k := by
      by_contra hlt
      exact h (Nat.pow_lt_pow_right (by decide) (by omega))
    unfold roundToFloat64
    rw [if_neg h, Nat.log2_two_pow]
    have hdiv : 2 ^ k / 2 ^ (k - 52) = 2 ^ 52 := by
      rw [Nat.pow_div (by omega) (by decide)]
      congr 1
      omega
    have hmod : 2 ^ k % 2 ^ (k - 52) = 0 :=
      Nat.mod_eq_zero_of_dvd (Nat.pow_dvd_pow 2 (by omega))
    have hhalf : 0 < 2 ^ (k - 52 - 1) := Nat.pow_pos (by decide)
    simp only [hdiv, hmod, if_pos hhalf]
    rw [← Nat.pow_add]
    congr 1
    omega

/-- The greatest `int`, `2 ^ 63 - 1`, is not a float64: the conversion rounds it up to
`2 ^ 63`. -/
theorem roundToFloat64_maxInt : roundToFloat64 (2 ^ 63 - 1) = 2 ^ 63 := by
  have hl : Nat.log2 (2 ^ 63 - 1) = 62 := log2_of_bounds (by norm_num) (by norm_num)
  unfold roundToFloat64
  rw [hl]
  norm_num

theorem float64_of_nat (m : Nat) : float64 (m : Int) = (roundToFloat64 m : Int) := by
  unfold float64
  rw [if_pos (Int.natCast_nonneg m), Int.toNat_natCast]

theorem Frexp_two_pow (k : Nat) : Frexp (2 ^ k) = (1 / 2, k + 1) := by
  unfold Frexp
  rw [Nat.log2_two_pow]
  congr 1
  push_cast
  rw [pow_succ]
  field_simp

/-- Function `math.Log2` is exact on the powers of two. -/
theorem Log2_two_pow (rt : Runtime) (k : Nat) :
    Log2 rt ((2 ^ k : Nat) : Int) = F64.fin (k : ℚ) := by
  have hpos : (0 : Int) < ((2 ^ k : Nat) : Int) := by exact_mod_cast Nat.pow_pos (by decide)
  unfold Log2
  rw [if_neg (by omega), if_neg (by omega), Int.toNat_natCast, Frexp_two_pow]
  simp

theorem intOfFloat64_int (rt : Runtime) (k : Int) (hlo : -(2 : Int) ^ 63 ≤ k)
    (hhi : k < (2 : Int) ^ 63) : intOfFloat64 rt (F64.fin (k : ℚ)) = k := by
  unfold intOfFloat64
  simp only [Rat.intCast_num, Rat.intCast_den, Nat.cast_one, Int.tdiv_one]
  rw [if_pos ⟨hlo, hhi⟩]

/-- A finite non-negative float64 whose value lies in `[k, k + 1)` converts to `k`. -/
theorem intOfFloat64_of_bounds (rt : Runtime) (q : ℚ) (k : Nat) (hk : k < 2 ^ 63)
    (hlo : (k : ℚ) ≤ q) (hhi : q < (k : ℚ) + 1) : intOfFloat64 rt (F64.fin q) = k := by
  have hq : (0 : ℚ) ≤ q := le_trans (Nat.cast_nonneg k) hlo
  have hfloor : ⌊q⌋ = (k : Int) := by
    rw [Int.floor_eq_iff]
    exact ⟨by exact_mod_cast hlo, by exact_mod_cast hhi⟩
  have ht : Int.tdiv q.num q.den = (k : Int) := by
    rw [Int.tdiv_eq_ediv (Rat.num_nonneg.mpr hq) (Int.natCast_nonneg _), ← Rat.floor_def, hfloor]
  unfold intOfFloat64
  simp only [ht]
  rw [if_pos ⟨by omega, by exact_mod_cast hk⟩]

/-- The conversion keeps a number between the powers of two around it. -/
theorem roundToFloat64_bounds {m : Nat} (hm : 0 < m) :
    2 ^ Nat.log2 m ≤ roundToFloat64 m ∧ roundToFloat64 m ≤ 2 ^ (Nat.log2 m + 1) := by
  have hm0 : m ≠ 0 := Nat.pos_iff_ne_zero.mp hm
  have hlo : 2 ^ Nat.log2 m ≤ m := Nat.log2_self_le hm0
  have hhi : m < 2 ^ (Nat.log2 m + 1) := Nat.lt_log2_self
  by_cases h : m < 2 ^ 53
  · rw [roundToFloat64_of_lt h]
    exact ⟨hlo, hhi.le⟩
  · have hk : 53 ≤ Nat.log2 m := by
      by_contra hlt
      have : 2 ^ (Nat.log2 m + 1) ≤ 2 ^ 53 := Nat.pow_le_pow_right (by decide) (by omega)
      omega
    obtain ⟨e, he⟩ : ∃ e, Nat.log2 m = e + 52 := ⟨Nat.log2 m - 52, by omega⟩
    have hD : 0 < 2 ^ e := Nat.pow_pos (by decide)
    have e1 : 2 ^ Nat.log2 m = 2 ^ 52 * 2 ^ e := by rw [he, Nat.pow_add, Nat.mul_comm]
    have e2 : 2 ^ (Nat.log2 m + 1) = 2 ^ 53 * 2 ^ e := by
      rw [he, show e + 52 + 1 = 53 + e by omega, Nat.pow_add]
    have hq1 : 2 ^ 52 ≤ m / 2 ^ e := (Nat.le_div_iff_mul_le hD).mpr (by rw [← e1]; exact hlo)
    have hq2 : m / 2 ^ e < 2 ^ 53 := (Nat.div_lt_iff_lt_mul hD).mpr (by rw [← e2]; exact hhi)
    have hq3 : m / 2 ^ e * 2 ^ e ≤ m := Nat.div_mul_le_self m (2 ^ e)
    have g1 : 2 ^ 52 * 2 ^ e ≤ m / 2 ^ e * 2 ^ e := Nat.mul_le_mul_right _ hq1
    have g2 : (m / 2 ^ e + 1) * 2 ^ e ≤ 2 ^ 53 * 2 ^ e := Nat.mul_le_mul_right _ hq2
    have g3 : m / 2 ^ e * 2 ^ e ≤ (m / 2 ^ e + 1) * 2 ^ e :=
      Nat.mul_le_mul_right _ (Nat.le_succ _)
    rw [e1, e2]
    unfold roundToFloat64
    rw [if_neg h, he, Nat.add_sub_cancel]
    simp only []
    split
    · exact ⟨g1, le_trans g3 g2⟩
    · split
      · exact ⟨g1, le_trans g3 g2⟩
      · exact ⟨le_trans g1 g3, g2⟩

/-- Just below a power of two beyond `2 ^ 53` the conversion rounds up to that power: for
`53 ≤ k`, every `m` with `2 ^ (k + 1) - 2 ^ (k - 53) ≤ m < 2 ^ (k + 1)` converts to
`2 ^ (k + 1)`. -/
theorem roundToFloat64_round_up {m k : Nat} (hk : 53 ≤ k)
    (hlo : 2 ^ (k + 1) - 2 ^ (k - 53) ≤ m) (hhi : m < 2 ^ (k + 1)) :
    Nat.log2 m = k ∧ roundToFloat64 m = 2 ^ (k + 1) := by
  obtain ⟨d, hd⟩ : ∃ d, k = d + 53 := ⟨k - 53, by omega⟩
  subst hd
  have hE : 0 < 2 ^ d := Nat.pow_pos (by decide)
  have e0 : 2 ^ (d + 53 - 53) = 2 ^ d := by rw [Nat.add_sub_cancel]
  have e1 : 2 ^ (d + 53 + 1) = 18014398509481984 * 2 ^ d := by
    rw [show d + 53 + 1 = 54 + d by omega, Nat.pow_add]
  have e2 : 2 ^ (d + 53) = 9007199254740992 * 2 ^ d := by
    rw [show d + 53 = 53 + d by omega, Nat.pow_add]
  have e3 : 2 ^ (d + 53 - 52) = 2 * 2 ^ d := by
    rw [show d + 53 - 52 = 1 + d by omega, Nat.pow_add]
  have e4 : 2 ^ (d + 53 - 52 - 1) = 2 ^ d := by
    rw [show d + 53 - 52 - 1 = d by omega]
  rw [e0, e1] at hlo
  rw [e1] at hhi
  have hlog : Nat.log2 m = d + 53 := log2_of_bounds (by rw [e2]; omega) (by rw [e1]; exact hhi)
  refine ⟨hlog, ?_⟩
  have hq : m / (2 * 2 ^ d) = 9007199254740991 :=
    Nat.div_eq_of_lt_le (by omega) (by omega)
  have hmod := Nat.div_add_mod m (2 * 2 ^ d)
  rw [hq] at hmod
  have h53 : ¬ m < 2 ^ 53 := by
    have : (2 : Nat) ^ 53 = 9007199254740992 := by norm_num
    omega
  unfold roundToFloat64
  rw [if_neg h53, hlog]
  simp only []
  rw [e4, e3, hq, e1, if_neg (by omega), if_neg (by omega)]
  omega

/-- The binary logarithm of `1 + t` is at least `t` for `t` in `[0, 1]`. -/
theorem le_logb_two_one_add (t : ℝ) (h0 : 0 ≤ t) (h1 : t ≤ 1) :
    t ≤ Real.logb 2 (1 + t) := by
  have hc := strictConcaveOn_log_Ioi.concaveOn.2 (show (1 : ℝ) ∈ Set.Ioi 0 by norm_num)
    (show (2 : ℝ) ∈ Set.Ioi 0 by norm_num) (show 0 ≤ 1 - t by linarith) h0
    (show 1 - t + t = 1 by ring)
  simp only [smul_eq_mul, Real.log_one, mul_zero, zero_add, mul_one] at hc
  have h2 : (1 - t) + t * 2 = 1 + t := by ring
  rw [h2] at hc
  have hl : 0 < Real.log 2 := Real.log_pos (by norm_num)
  rw [← Real.log_div_log, le_div_iff₀ hl]
  exact hc

/-- The binary logarithm of `1 + u` is at least `5/4 * u` for `u` in `[0, 1/8]`. -/
theorem le_logb_two_one_add_small (u : ℝ) (h0 : 0 ≤ u) (h1 : u ≤ 1 / 8) :
    5 / 4 * u ≤ Real.logb 2 (1 + u) := by
  have hl : 0 < Real.log 2 := Real.log_pos (by norm_num)
  have hl1 : Real.log 2 < 0.6931471808 := Real.log_two_lt_d9
  have h := Real.one_sub_inv_le_log_of_pos (show 0 < 1 + u by linarith)
  have hinv : 8 / 9 * u ≤ 1 - (1 + u)⁻¹ := by
    have hpos : (0 : ℝ) < 1 + u := by linarith
    have e : 1 - (1 + u)⁻¹ = u / (1 + u) := by
      field_simp
    rw [e, le_div_iff₀ hpos]
    nlinarith
  rw [← Real.log_div_log, le_div_iff₀ hl]
  nlinarith

/-- The binary logarithm of `1 - s` is below `-(5/4 * s)` for `s` in `(0, 1)`. -/
theorem logb_two_one_sub_lt (s : ℝ) (h0 : 0 < s) (h1 : s < 1) :
    Real.logb 2 (1 - s) < -(5 / 4 * s) := by
  have hl : 0 < Real.log 2 := Real.log_pos (by norm_num)
  have hl1 : Real.log 2 < 0.6931471808 := Real.log_two_lt_d9
  have h := Real.log_le_sub_one_of_pos (show 0 < 1 - s by linarith)
  rw [← Real.log_div_log, div_lt_iff₀ hl]
  nlinarith

/-- A number at a relative distance of `2 ^ -48` or more above `2 ^ k` and below `2 ^ (k + 1)`
has its binary logarithm at a distance of `5 / 2 ^ 50` or more from `k` and from `k + 1`. -/
theorem logb_two_of_margins (x k : Nat) (hlo : 2 ^ k ≤ 2 ^ 48 * (x - 2 ^ k))
    (hhi : 2 ^ (k + 1) ≤ 2 ^ 48 * (2 ^ (k + 1) - x)) :
    (k : ℝ) + 5 / 2 ^ 50 ≤ Real.logb 2 x ∧ Real.logb 2 x < (k : ℝ) + 1 - 5 / 2 ^ 50 := by
  have hP : 0 < 2 ^ k := Nat.pow_pos (by decide)
  have hx1 : 2 ^ k < x := by
    by_contra h
    rw [Nat.sub_eq_zero_of_le (Nat.le_of_not_lt h)] at hlo
    omega
  have hx2 : x < 2 ^ (k + 1) := by
    by_contra h
    rw [Nat.sub_eq_zero_of_le (Nat.le_of_not_lt h)] at hhi
    have : 0 < 2 ^ (k + 1) := Nat.pow_pos (by decide)
    omega
  have hPR : (0 : ℝ) < (2 : ℝ) ^ k := by positivity
  have hQR : (0 : ℝ) < (2 : ℝ) ^ (k + 1) := by positivity
  have hxR : (0 : ℝ) < (x : ℝ) := by exact_mod_cast Nat.lt_trans hP hx1
  have hx1R : (2 : ℝ) ^ k < x := by exact_mod_cast hx1
  have hx2R : (x : ℝ) < (2 : ℝ) ^ (k + 1) := by exact_mod_cast hx2
  have hloR : (2 : ℝ) ^ k ≤ 2 ^ 48 * ((x : ℝ) - 2 ^ k) := by
    have h : ((2 ^ k : Nat) : ℝ) ≤ ((2 ^ 48 * (x - 2 ^ k) : Nat) : ℝ) := Nat.cast_le.mpr hlo
    rw [Nat.cast_mul, Nat.cast_sub hx1.le] at h
    exact_mod_cast h
  have hhiR : (2 : ℝ) ^ (k + 1) ≤ 2 ^ 48 * ((2 : ℝ) ^ (k + 1) - x) := by
    have h : ((2 ^ (k + 1) : Nat) : ℝ) ≤ ((2 ^ 48 * (2 ^ (k + 1) - x) : Nat) : ℝ) :=
      Nat.cast_le.mpr hhi
    rw [Nat.cast_mul, Nat.cast_sub hx2.le] at h
    exact_mod_cast h
  have hpowk : Real.logb 2 ((2 : ℝ) ^ k) = k := by
    rw [Real.logb_pow, Real.logb_self_eq_one (by norm_num), mul_one]
  have hpowk1 : Real.logb 2 ((2 : ℝ) ^ (k + 1)) = (k : ℝ) + 1 := by
    rw [Real.logb_pow, Real.logb_self_eq_one (by norm_num), mul_one]
    push_cast
    ring
  constructor
  · -- `x = 2 ^ k * (1 + t)` with `2 ^ -48 ≤ t ≤ 1`
    have ht0 : (1 : ℝ) / 2 ^ 48 ≤ ((x : ℝ) - 2 ^ k) / 2 ^ k := by
      rw [le_div_iff₀ hPR, div_mul_eq_mul_div, div_le_iff₀ (by positivity)]
      linarith
    have ht1 : ((x : ℝ) - 2 ^ k) / 2 ^ k ≤ 1 := by
      rw [div_le_iff₀ hPR]
      rw [pow_succ] at hx2R
      linarith
    have hfac : (x : ℝ) = 2 ^ k * (1 + ((x : ℝ) - 2 ^ k) / 2 ^ k) := by
      field_simp
    have hlog : Real.logb 2 x = k + Real.logb 2 (1 + ((x : ℝ) - 2 ^ k) / 2 ^ k) := by
      conv_lhs => rw [hfac]
      rw [Real.logb_mul hPR.ne' (by positivity), hpowk]
    have ht : (0 : ℝ) ≤ ((x : ℝ) - 2 ^ k) / 2 ^ k := le_trans (by positivity) ht0
    rw [hlog]
    by_cases hsmall : ((x : ℝ) - 2 ^ k) / 2 ^ k ≤ 1 / 8
    · have := le_logb_two_one_add_small _ ht hsmall
      have e : (5 : ℝ) / 2 ^ 50 = 5 / 4 * (1 / 2 ^ 48) := by norm_num
      rw [e]
      linarith
    · have := le_logb_two_one_add _ ht ht1
      have e : (5 : ℝ) / 2 ^ 50 ≤ 1 / 8 := by norm_num
      linarith
  · -- `x = 2 ^ (k + 1) * (1 - s)` with `2 ^ -48 ≤ s < 1`
    have hs0 : (1 : ℝ) / 2 ^ 48 ≤ ((2 : ℝ) ^ (k + 1) - x) / 2 ^ (k + 1) := by
      rw [le_div_iff₀ hQR, div_mul_eq_mul_div, div_le_iff₀ (by positivity)]
      linarith
    have hs1 : ((2 : ℝ) ^ (k + 1) - x) / 2 ^ (k + 1) < 1 := by
      rw [div_lt_iff₀ hQR]
      linarith
    have hfac : (x : ℝ) = 2 ^ (k + 1) * (1 - ((2 : ℝ) ^ (k + 1) - x) / 2 ^ (k + 1)) := by
      field_simp
    have hne : (1 - ((2 : ℝ) ^ (k + 1) - x) / 2 ^ (k + 1)) ≠ 0 := by linarith
    have hlog : Real.logb 2 x =
        (k : ℝ) + 1 + Real.logb 2 (1 - ((2 : ℝ) ^ (k + 1) - x) / 2 ^ (k + 1)) := by
      conv_lhs => rw [hfac]
      rw [Real.logb_mul hQR.ne' hne, hpowk1]
    have := logb_two_one_sub_lt _ (lt_of_lt_of_le (by positivity) hs0) hs1
    have e : (5 : ℝ) / 2 ^ 50 = 5 / 4 * (1 / 2 ^ 48) := by norm_num
    rw [hlog, e]
    linarith

/-- The inner bound is the truncated `math.Log2` of the float64 nearest to the count. -/
theorem innerBound_of_nat (rt : Runtime) (m : Nat) :
    innerBound rt (m : Int) = intOfFloat64 rt (Log2 rt ((roundToFloat64 m : Nat) : Int)) := by
  unfold innerBound
  rw [float64_of_nat]

/-- When the float64 nearest to the count is the power of two `2 ^ k`, the inner bound is
`k`. -/
theorem innerBound_of_float64_two_pow (rt : Runtime) (m k : Nat) (hk : k ≤ 63)
    (h : roundToFloat64 m = 2 ^ k) : innerBound rt (m : Int) = k := by
  rw [innerBound_of_nat, h, Log2_two_pow]
  have h := intOfFloat64_int rt (k : Int) (by omega) (by
    have : (k : Int) < 64 := by omega
    omega)
  rwa [Int.cast_natCast] at h

/-- On an exact power of two within the range of `int` the inner bound is the exponent. -/
theorem innerBound_two_pow (rt : Runtime) (k : Nat) (hk : k ≤ 62) :
    innerBound rt ((2 ^ k : Nat) : Int) = k :=
  innerBound_of_float64_two_pow rt (2 ^ k) k (by omega) (roundToFloat64_two_pow k)

/-- On the greatest `int` the inner bound is 63. -/
theorem innerBound_maxInt (rt : Runtime) : innerBound rt 9223372036854775807 = 63 := by
  have h1 : (9223372036854775807 : Int) = ((2 ^ 63 - 1 : Nat) : Int) := by norm_num
  rw [h1]
  exact innerBound_of_float64_two_pow rt (2 ^ 63 - 1) 63 (by omega) roundToFloat64_maxInt

/-- The accuracy of `math.Log2` fixes its truncation on a float64 `x`, at most `2 ^ 63`, at a
relative distance of `2 ^ -48` or more from the powers of two `2 ^ k` below and `2 ^ (k + 1)`
above it: the truncation is `k`. -/
theorem truncLog2_of_margins (rt : Runtime) (x k : Nat) (hx63 : x ≤ 2 ^ 63)
    (hlo : 2 ^ k ≤ 2 ^ 48 * (x - 2 ^ k)) (hhi : 2 ^ (k + 1) ≤ 2 ^ 48 * (2 ^ (k + 1) - x)) :
    intOfFloat64 rt (Log2 rt (x : Int)) = k := by
  have hP : 0 < 2 ^ k := Nat.pow_pos (by decide)
  have hx1 : 2 ^ k < x := by
    by_contra h
    rw [Nat.sub_eq_zero_of_le (Nat.le_of_not_lt h)] at hlo
    omega
  have hx2 : x < 2 ^ (k + 1) := by
    by_contra h
    rw [Nat.sub_eq_zero_of_le (Nat.le_of_not_lt h)] at hhi
    have : 0 < 2 ^ (k + 1) := Nat.pow_pos (by decide)
    omega
  have hxpos : 0 < x := Nat.lt_trans hP hx1
  have hlog : Nat.log2 x = k := log2_of_bounds hx1.le hx2
  have hk63 : k < 63 := by
    by_contra hge
    have : 2 ^ 63 ≤ 2 ^ k := Nat.pow_le_pow_right (by decide) (by omega)
    omega
  have hb := logb_two_of_margins x k hlo hhi
  have hacc := abs_le.mp (rt.log2Inexact_accurate x hxpos hx63)
  have v1 : ((k : ℚ) : ℝ) ≤ ((rt.log2Inexact x : ℚ) : ℝ) := by
    push_cast
    linarith [hacc.1, hb.1]
  have v2 : ((rt.log2Inexact x : ℚ) : ℝ) < (((k : ℚ) + 1 : ℚ) : ℝ) := by
    push_cast
    linarith [hacc.2, hb.2]
  -- the library call goes through the inexact branch
  have hfrac : (Frexp x).1 ≠ 1 / 2 := by
    unfold Frexp
    rw [hlog]
    intro h
    have h2 : (2 : ℚ) ^ (k + 1) ≠ 0 := pow_ne_zero _ (by norm_num)
    rw [div_eq_iff h2, pow_succ] at h
    have h3 : (x : ℚ) = ((2 ^ k : Nat) : ℚ) := by
      push_cast
      linarith
    have h4 : x = 2 ^ k := by exact_mod_cast h3
    omega
  unfold Log2
  rw [if_neg (by omega), if_neg (by omega), Int.toNat_natCast]
  simp only [hfrac, if_false]
  exact intOfFloat64_of_bounds rt _ k (lt_trans hk63 (by norm_num))
    (by exact_mod_cast v1) (by exact_mod_cast v2)

/-- The same for a count `m` in the range of `int`, with the margins taken on the float64
nearest to `m`: the inner bound is `k`, which is the truncated binary logarithm of `m`. -/
theorem innerBound_of_margins (rt : Runtime) (m k : Nat) (hm : m < 2 ^ 63)
    (hlo : 2 ^ k ≤ 2 ^ 48 * (roundToFloat64 m - 2 ^ k))
    (hhi : 2 ^ (k + 1) ≤ 2 ^ 48 * (2 ^ (k + 1) - roundToFloat64 m)) :
    Nat.log2 m = k ∧ innerBound rt (m : Int) = k := by
  have hP : 0 < 2 ^ k := Nat.pow_pos (by decide)
  have hx1 : 2 ^ k < roundToFloat64 m := by
    by_contra h
    rw [Nat.sub_eq_zero_of_le (Nat.le_of_not_lt h)] at hlo
    omega
  have hx2 : roundToFloat64 m < 2 ^ (k + 1) := by
    by_contra h
    rw [Nat.sub_eq_zero_of_le (Nat.le_of_not_lt h)] at hhi
    have : 0 < 2 ^ (k + 1) := Nat.pow_pos (by decide)
    omega
  have hmpos : 0 < m := by
    by_contra h
    have h0 : m = 0 := by omega
    rw [h0, roundToFloat64_of_lt (by norm_num)] at hx1
    omega
  obtain ⟨b1, b2⟩ := roundToFloat64_bounds hmpos
  have hj1 : Nat.log2 m < k + 1 :=
    (Nat.pow_lt_pow_iff_right (by decide)).mp (lt_of_le_of_lt b1 hx2)
  have hj2 : k < Nat.log2 m + 1 :=
    (Nat.pow_lt_pow_iff_right (by decide)).mp (lt_of_lt_of_le hx1 b2)
  have hj : Nat.log2 m = k := by omega
  have hk62 : k ≤ 62 := by
    by_contra hge
    have h1 : 2 ^ 63 ≤ 2 ^ k := Nat.pow_le_pow_right (by decide) (by omega)
    have h2 : 2 ^ Nat.log2 m ≤ m := Nat.log2_self_le (Nat.pos_iff_ne_zero.mp hmpos)
    rw [hj] at h2
    omega
  have hx63 : roundToFloat64 m ≤ 2 ^ 63 :=
    le_trans hx2.le (Nat.pow_le_pow_right (by decide) (by omega))
  exact ⟨hj, by rw [innerBound_of_nat]; exact truncLog2_of_margins rt _ k hx63 hlo hhi⟩

/-- Below `2 ^ 49 - 1` the inner bound is the truncated binary logarithm of the count. -/
theorem innerBound_of_lt (rt : Runtime) (m : Nat) (hpos : 0 < m) (hm : m + 1 < 2 ^ 49) :
    innerBound rt (m : Int) = Nat.log2 m := by
  have hm0 : m ≠ 0 := Nat.pos_iff_ne_zero.mp hpos
  have hm49 : m < 2 ^ 49 := by omega
  have hlo : 2 ^ Nat.log2 m ≤ m := Nat.log2_self_le hm0
  have hhi : m < 2 ^ (Nat.log2 m + 1) := Nat.lt_log2_self
  have hk : Nat.log2 m < 49 := (Nat.log2_lt hm0).mpr hm49
  by_cases hpow : m = 2 ^ Nat.log2 m
  · have h := innerBound_two_pow rt (Nat.log2 m) (by omega)
    rwa [← hpow] at h
  · have hr : roundToFloat64 m = m :=
      roundToFloat64_of_lt (lt_trans hm49 (by norm_num))
    have h48 : 2 ^ Nat.log2 m ≤ 2 ^ 48 := Nat.pow_le_pow_right (by decide) (by omega)
    have g1 : 1 ≤ m - 2 ^ Nat.log2 m := by omega
    have m1 : 2 ^ 48 * 1 ≤ 2 ^ 48 * (m - 2 ^ Nat.log2 m) := Nat.mul_le_mul_left _ g1
    have m2 : 2 ^ (Nat.log2 m + 1) ≤ 2 ^ 48 * (2 ^ (Nat.log2 m + 1) - m) := by
      by_cases h48' : Nat.log2 m = 48
      · rw [h48'] at hhi ⊢
        have g2 : 2 ≤ 2 ^ (48 + 1) - m := by omega
        have := Nat.mul_le_mul_left (2 ^ 48) g2
        have e : (2 : Nat) ^ (48 + 1) = 2 ^ 48 * 2 := by norm_num
        omega
      · have g2 : 1 ≤ 2 ^ (Nat.log2 m + 1) - m := by omega
        have := Nat.mul_le_mul_left (2 ^ 48) g2
        have h47 : 2 ^ (Nat.log2 m + 1) ≤ 2 ^ 48 :=
          Nat.pow_le_pow_right (by decide) (by omega)
        omega
    exact (innerBound_of_margins rt m (Nat.log2 m) (lt_trans hm49 (by norm_num))
      (by rw [hr]; omega) (by rw [hr]; exact m2)).2

/-- Just below a power of two beyond `2 ^ 53` the inner bound is one more than the truncated
binary logarithm of the count. -/
theorem innerBound_round_up (rt : Runtime) (m k : Nat) (hk : 53 ≤ k) (hk62 : k ≤ 62)
    (hlo : 2 ^ (k + 1) - 2 ^ (k - 53) ≤ m) (hhi : m < 2 ^ (k + 1)) :
    roundToFloat64 m = 2 ^ (k + 1) ∧ Nat.log2 m = k ∧
      innerBound rt (m : Int) = (k + 1 : Nat) := by
  obtain ⟨hlog, hr⟩ := roundToFloat64_round_up hk hlo hhi
  exact ⟨hr, hlog, innerBound_of_float64_two_pow rt m (k + 1) (by omega) hr⟩

theorem innerBound_handler (rt : Runtime) : innerBound rt 10000 = 13 := by
  have h := innerBound_of_lt rt 10000 (by norm_num) (by norm_num)
  have hl : Nat.log2 10000 = 13 := log2_of_bounds (by norm_num) (by norm_num)
  rw [hl] at h
  exact_mod_cast h

/-! ## `doSomeThingOne`: the events -/

/-- What every iteration of a loop keeps, the run of the loop keeps. -/
theorem ForLoop.run_invariant {σ : Type} (l : ForLoop σ) (P : σ → Prop)
    (hnext : ∀ s, l.cond s = true → P s → P (l.next s)) (s : σ) (hs : P s) :
    P (l.run s) := by
  obtain ⟨k, -, hlt, -, hrun⟩ := l.terminates s
  rw [hrun]
  clear hrun
  induction k with
  | zero => exact hs
  | succ k ih =>
    rw [Function.iterate_succ_apply']
    exact hnext _ (hlt k (Nat.lt_succ_self k))
      (ih (fun j hj => hlt j (Nat.lt_succ_of_lt hj)))

/-- The inner loop, from any values of its variables, leaves the events as they were. -/
theorem innerLoop_events (inner : Int) (s : InnerVars) :
    ((innerLoop inner).run s).events = s.events :=
  (innerLoop inner).run_invariant (fun t => t.events = s.events) (fun _ _ ht => ht) s rfl

/-- The outer loop, from any values of its variables, leaves the events as they were. -/
theorem outerLoop_events (times inner : Int) (s : OuterVars) :
    ((outerLoop times inner).run s).events = s.events :=
  (outerLoop times inner).run_invariant (fun t => t.events = s.events)
    (fun t _ ht => by
      show ((innerLoop inner).run
        { j := 0, bodyRuns := t.bodyRuns, events := t.events }).events = s.events
      rw [innerLoop_events]
      exact ht) s rfl

/-- Function `doSomeThingOne` leaves the events as they were. -/
theorem doSomeThingOne_events (rt : Runtime) (times : Int) (w : List Event) :
    (doSomeThingOne rt times w).events = w := by
  unfold doSomeThingOne
  rw [outerLoop_events]

/-- The record of a call of `doSomeThingOne` is no part of the response nor of the log. -/
theorem returned_observed (times : Int) (s : OuterVars) :
    response (OuterVars.returned times s) = response s.events ∧
      logged (OuterVars.returned times s) = logged s.events := by
  unfold OuterVars.returned
  rw [response_append, logged_append]
  simp [response, body, writes, statusCodes, logged]

/-! ## `handler`: the two paths -/

theorem handler_of_ok (rt : Runtime) (r : Request) (h : r.parseErr = none) :
    handler rt r = [Event.Println r.Form, Event.doSomeThingOne 10000 10000 130000,
      Event.genSomeBytes genSomeBytes, Event.ReadAll genSomeBytes,
      Event.Write genSomeBytes.unread] := by
  rw [handler, h]
  show OuterVars.returned 10000 (doSomeThingOne rt 10000 [Event.Println r.Form])
    ++ [Event.genSomeBytes genSomeBytes, Event.ReadAll genSomeBytes]
    ++ writeResult (ReadAll rt genSomeBytes) = _
  rw [doSomeThingOne_eq, innerBound_handler, ReadAll_eq, writeResult]
  rfl

theorem handler_of_err (rt : Runtime) (r : Request) (e : GoError) (h : r.parseErr = some e) :
    handler rt r = [Event.Write e.Error] := by
  rw [handler, h]

theorem handlerWithoutBusyLoop_of_ok (rt : Runtime) (r : Request) (h : r.parseErr = none) :
    handlerWithoutBusyLoop rt r = [Event.Println r.Form,
      Event.genSomeBytes genSomeBytes, Event.ReadAll genSomeBytes,
      Event.Write genSomeBytes.unread] := by
  rw [handlerWithoutBusyLoop, h]
  show [Event.Println r.Form] ++ [Event.genSomeBytes genSomeBytes, Event.ReadAll genSomeBytes]
    ++ writeResult (ReadAll rt genSomeBytes) = _
  rw [ReadAll_eq, writeResult]
  rfl

/-- On the success path the body is the generated sequence and no status code is set. -/
theorem handler_ok_body (rt : Runtime) (r : Request) (h : r.parseErr = none) :
    body (handler rt r) = genSomeBytes.unread ∧ statusCodes (handler rt r) = [] := by
  rw [handler_of_ok rt r h]
  constructor
  · simp only [body, writes, List.flatten, List.append_nil]
  · simp only [statusCodes]

/-! ## The claims -/

/-- C1. For every request whose form parsing succeeds, whatever its parameters, `handler`
calls `w.Write` exactly once, with the complete content of the buffer returned by
`genSomeBytes`; the response body is that content, 19,999 bytes long, and no status code is set
explicitly. -/
theorem C1_success_body (rt : Runtime) (r : Request) (h : r.parseErr = none) :
    writes (handler rt r) = [genSomeBytes.unread] ∧
      body (handler rt r) = genSomeBytes.unread ∧
      (body (handler rt r)).length = 19999 ∧
      statusCodes (handler rt r) = [] := by
  rw [handler_of_ok rt r h]
  refine ⟨?_, ?_, ?_, ?_⟩
  · simp only [writes]
  · simp only [body, writes, List.flatten, List.append_nil]
  · simp only [body, writes, List.flatten, List.append_nil, genSomeBytes_length]
  · simp only [statusCodes]

/-- C1 at the request `GET /test?x=1`. -/
theorem C1_success_body_witness :
    sampleRequest.parseErr = none ∧
      writes (handler sampleRuntime sampleRequest) = [genSomeBytes.unread] ∧
      body (handler sampleRuntime sampleRequest) = genSomeBytes.unread ∧
      (body (handler sampleRuntime sampleRequest)).length = 19999 ∧
      statusCodes (handler sampleRuntime sampleRequest) = [] :=
  ⟨rfl, C1_success_body sampleRuntime sampleRequest rfl⟩

/-- C2. For every position `i` with `1 ≤ i ≤ 19999`, the byte at the 1-indexed position `i`
of the sequence produced by `genSomeBytes` is the code of `'0'` plus `i mod 10`; the sequence
starts with "123456789012345678". -/
theorem C2_byte_at_position (i : Nat) (h1 : 1 ≤ i) (h2 : i ≤ 19999) :
    genSomeBytes.unread[i - 1]? = some (48 + i % 10) ∧
      genSomeBytes.unread.take 18 =
        [49, 50, 51, 52, 53, 54, 55, 56, 57, 48, 49, 50, 51, 52, 53, 54, 55, 56] := by
  constructor
  · rw [genSomeBytes_getElem? (i - 1) (by omega), Nat.sub_add_cancel h1]
  · rw [genSomeBytes_unread, ← List.map_take,
      show List.range' 1 19999 = List.range' 1 18 ++ List.range' (1 + 18) 19981 from
        (List.range'_append_1 1 18 19981).symm,
      List.take_left' (List.length_range' _ _ _)]
    decide

/-- C2 at the position 12345. -/
theorem C2_byte_at_position_witness :
    1 ≤ 12345 ∧ 12345 ≤ 19999 ∧
      genSomeBytes.unread[12345 - 1]? = some (48 + 12345 % 10) ∧
      genSomeBytes.unread.take 18 =
        [49, 50, 51, 52, 53, 54, 55, 56, 57, 48, 49, 50, 51, 52, 53, 54, 55, 56] :=
  ⟨by decide, by decide, C2_byte_at_position 12345 (by decide) (by decide)⟩

/-- C3. For every request whose form parsing fails with an error `e`, `handler` does one thing,
the call `w.Write` with the bytes of the text of `e`: the body is that text, no status code is
set, nothing is logged, and neither `doSomeThingOne` nor `genSomeBytes` runs. -/
theorem C3_parse_failure (rt : Runtime) (r : Request) (e : GoError)
    (h : r.parseErr = some e) :
    handler rt r = [Event.Write e.Error] ∧
      body (handler rt r) = e.Error ∧
      statusCodes (handler rt r) = [] ∧
      logged (handler rt r) = [] ∧
      ∀ ev ∈ handler rt r, ev.isHelperCall = false := by
  rw [handler_of_err rt r e h]
  refine ⟨rfl, ?_, ?_, ?_, ?_⟩
  · simp only [body, writes, List.flatten, List.append_nil]
  · simp only [statusCodes]
  · simp only [logged]
  · intro ev hev
    rw [List.mem_singleton] at hev
    rw [hev]
    rfl

/-- C3 at a request whose parsing fails with the error "bad". -/
theorem C3_parse_failure_witness :
    badRequest.parseErr = some (GoError.other [98, 97, 100]) ∧
      handler sampleRuntime badRequest = [Event.Write (GoError.other [98, 97, 100]).Error] ∧
      body (handler sampleRuntime badRequest) = (GoError.other [98, 97, 100]).Error ∧
      statusCodes (handler sampleRuntime badRequest) = [] ∧
      logged (handler sampleRuntime badRequest) = [] ∧
      ∀ ev ∈ handler sampleRuntime badRequest, ev.isHelperCall = false :=
  ⟨rfl, C3_parse_failure sampleRuntime badRequest (GoError.other [98, 97, 100]) rfl⟩

/-- C4. For any two requests whose form parsing succeeds, with the same parameters or with
different ones, the response bodies written by `handler` are the same bytes, and so are the
responses: the body does not depend on the request. -/
theorem C4_body_independent_of_request (rt : Runtime) (r₁ r₂ : Request)
    (h₁ : r₁.parseErr = none) (h₂ : r₂.parseErr = none) :
    body (handler rt r₁) = body (handler rt r₂) ∧
      response (handler rt r₁) = response (handler rt r₂) := by
  have hb : ∀ r : Request, r.parseErr = none → body (handler rt r) = genSomeBytes.unread :=
    fun r h => (handler_ok_body rt r h).1
  have hs : ∀ r : Request, r.parseErr = none → statusCodes (handler rt r) = [] :=
    fun r h => (handler_ok_body rt r h).2
  refine ⟨by rw [hb r₁ h₁, hb r₂ h₂], ?_⟩
  simp only [response, hb r₁ h₁, hb r₂ h₂, hs r₁ h₁, hs r₂ h₂]

/-- C4 at two requests with different parameters. -/
theorem C4_body_independent_of_request_witness :
    sampleRequest.parseErr = none ∧ otherRequest.parseErr = none ∧
      sampleRequest.Form ≠ otherRequest.Form ∧
      body (handler sampleRuntime sampleRequest) = body (handler sampleRuntime otherRequest) ∧
      response (handler sampleRuntime sampleRequest) =
        response (handler sampleRuntime otherRequest) :=
  ⟨rfl, rfl, by decide,
    C4_body_independent_of_request sampleRuntime sampleRequest otherRequest rfl rfl⟩

/-- C5. Every byte of the sequence produced by `genSomeBytes` is an ASCII digit, between `'0'`
(48) and `'9'` (57); for every `i` from 1 to 19999 the 8-bit sum `'0' + byte(i%10)` does not
wrap around: without the reduction modulo 256 it is the same number, below 256. -/
theorem C5_bytes_are_digits :
    (∀ b ∈ genSomeBytes.unread, 48 ≤ b ∧ b ≤ 57) ∧
      ∀ i, 1 ≤ i → i ≤ 19999 →
        48 + toByte (i % 10) < 256 ∧ byteAdd 48 (toByte (i % 10)) = 48 + toByte (i % 10) ∧
          genSomeBytes.unread[i - 1]? = some (48 + toByte (i % 10)) := by
  constructor
  · intro b hb
    rw [genSomeBytes_unread, List.mem_map] at hb
    obtain ⟨i, _, rfl⟩ := hb
    rw [digitAt_eq]
    have : i % 10 < 10 := Nat.mod_lt i (by decide)
    omega
  · intro i h1 h2
    have hlt : i % 10 < 10 := Nat.mod_lt i (by decide)
    have hb : toByte (i % 10) = i % 10 := by
      unfold toByte
      omega
    refine ⟨by omega, ?_, ?_⟩
    · unfold byteAdd
      omega
    · rw [genSomeBytes_getElem? (i - 1) (by omega), Nat.sub_add_cancel h1, hb]

/-- C6 (amended). For every iteration count `n ≥ 1`, `doSomeThingOne(n)` executes its outer
body `n` times and its (empty) inner body exactly `n * inner` times, where the inner bound
`inner` is the base-2 logarithm, truncated to an integer, of the float64 nearest to `n`.
For every `n < 2 ^ 49 - 1` that is `trunc(log2 n)`, as stated: for the count 10000 of the
handler the inner bound is 13 and the inner body runs 130000 times. It is also `trunc(log2 n)`
when `n` is an exact power of two and, for `n` in the range of `int`, when the float64 nearest
to `n` is at a relative distance of `2 ^ -48` or more from the powers of two around it. When
that float64 is a power of two `2 ^ k`, the inner bound is `k`: for `53 ≤ k ≤ 62` every `n`
with `2 ^ (k + 1) - 2 ^ (k - 53) ≤ n < 2 ^ (k + 1)` is rounded up to `2 ^ (k + 1)` and the
inner bound is `k + 1`, one more than `trunc(log2 n)`. -/
theorem C6_inner_iterations (rt : Runtime) (n : Int) (hn : 1 ≤ n) :
    (∀ w : List Event, (doSomeThingOne rt n w).i = n.toNat ∧
        (doSomeThingOne rt n w).bodyRuns = n.toNat * (innerBound rt n).toNat) ∧
      (n < 2 ^ 49 - 1 → innerBound rt n = Nat.log2 n.toNat) ∧
      (∀ k : Nat, k ≤ 62 → n = 2 ^ k →
        Nat.log2 n.toNat = k ∧ innerBound rt n = Nat.log2 n.toNat) ∧
      (∀ k : Nat, n < 2 ^ 63 →
        2 ^ k ≤ 2 ^ 48 * ((float64 n).toNat - 2 ^ k) →
        2 ^ (k + 1) ≤ 2 ^ 48 * (2 ^ (k + 1) - (float64 n).toNat) →
        Nat.log2 n.toNat = k ∧ innerBound rt n = Nat.log2 n.toNat) ∧
      (∀ k : Nat, k ≤ 63 → float64 n = 2 ^ k → innerBound rt n = k) ∧
      (∀ k : Nat, 53 ≤ k → k ≤ 62 →
        2 ^ (k + 1) - 2 ^ (k - 53) ≤ n → n < 2 ^ (k + 1) →
        float64 n = 2 ^ (k + 1) ∧ Nat.log2 n.toNat = k ∧
          innerBound rt n = Nat.log2 n.toNat + 1) ∧
      innerBound rt 10000 = 13 ∧
      ∀ w : List Event, (doSomeThingOne rt 10000 w).bodyRuns = 130000 := by
  obtain ⟨m, rfl⟩ : ∃ m : Nat, n = (m : Int) := ⟨n.toNat, by omega⟩
  have hpos : 0 < m := by omega
  have hf : (float64 (m : Int)).toNat = roundToFloat64 m := by
    rw [float64_of_nat, Int.toNat_natCast]
  simp only [doSomeThingOne_eq, Int.toNat_natCast, hf]
  refine ⟨fun _ => ⟨trivial, trivial⟩, ?_, ?_, ?_, ?_, ?_, innerBound_handler rt, ?_⟩
  · intro h49
    exact innerBound_of_lt rt m hpos (by
      have h : ((m + 1 : Nat) : Int) < ((2 ^ 49 : Nat) : Int) := by
        push_cast
        omega
      exact_mod_cast h)
  · intro k hk hm
    have hm' : m = 2 ^ k := by exact_mod_cast hm
    subst hm'
    rw [Nat.log2_two_pow]
    exact ⟨rfl, innerBound_two_pow rt k hk⟩
  · intro k h63 hlo hhi
    obtain ⟨h1, h2⟩ := innerBound_of_margins rt m k (by exact_mod_cast h63) hlo hhi
    exact ⟨h1, by rw [h2, h1]⟩
  · intro k hk hfk
    rw [float64_of_nat] at hfk
    exact innerBound_of_float64_two_pow rt m k hk (by exact_mod_cast hfk)
  · intro k hk hk62 hlo hhi
    have hP : 2 ^ (k - 53) ≤ 2 ^ (k + 1) := Nat.pow_le_pow_right (by decide) (by omega)
    have hlo' : 2 ^ (k + 1) - 2 ^ (k - 53) ≤ m := by
      have h : (((2 ^ (k + 1) - 2 ^ (k - 53) : Nat) : Int)) ≤ (m : Int) := by
        rw [Nat.cast_sub hP]
        exact_mod_cast hlo
      exact_mod_cast h
    obtain ⟨h1, h2, h3⟩ := innerBound_round_up rt m k hk hk62 hlo' (by exact_mod_cast hhi)
    refine ⟨?_, h2, ?_⟩
    · rw [float64_of_nat, h1]
      norm_cast
    · rw [h3, h2]
      norm_cast
  · intro _
    rw [innerBound_handler]
    rfl

/-- C6 (amended) at the count 10000 of the handler. -/
theorem C6_inner_iterations_witness :
    (1 : Int) ≤ 10000 ∧
      (∀ w : List Event, (doSomeThingOne sampleRuntime 10000 w).i = (10000 : Int).toNat ∧
        (doSomeThingOne sampleRuntime 10000 w).bodyRuns =
          (10000 : Int).toNat * (innerBound sampleRuntime 10000).toNat) ∧
      ((10000 : Int) < 2 ^ 49 - 1 →
        innerBound sampleRuntime 10000 = Nat.log2 (10000 : Int).toNat) ∧
      (∀ k : Nat, k ≤ 62 → (10000 : Int) = 2 ^ k →
        Nat.log2 (10000 : Int).toNat = k ∧
          innerBound sampleRuntime 10000 = Nat.log2 (10000 : Int).toNat) ∧
      (∀ k : Nat, (10000 : Int) < 2 ^ 63 →
        2 ^ k ≤ 2 ^ 48 * ((float64 10000).toNat - 2 ^ k) →
        2 ^ (k + 1) ≤ 2 ^ 48 * (2 ^ (k + 1) - (float64 10000).toNat) →
        Nat.log2 (10000 : Int).toNat = k ∧
          innerBound sampleRuntime 10000 = Nat.log2 (10000 : Int).toNat) ∧
      (∀ k : Nat, k ≤ 63 → float64 10000 = 2 ^ k → innerBound sampleRuntime 10000 = k) ∧
      (∀ k : Nat, 53 ≤ k → k ≤ 62 → 2 ^ (k + 1) - 2 ^ (k - 53) ≤ (10000 : Int) →
        (10000 : Int) < 2 ^ (k + 1) →
        float64 10000 = 2 ^ (k + 1) ∧ Nat.log2 (10000 : Int).toNat = k ∧
          innerBound sampleRuntime 10000 = Nat.log2 (10000 : Int).toNat + 1) ∧
      innerBound sampleRuntime 10000 = 13 ∧
      ∀ w : List Event, (doSomeThingOne sampleRuntime 10000 w).bodyRuns = 130000 :=
  ⟨by decide, C6_inner_iterations sampleRuntime 10000 (by decide)⟩

/-- C6, as stated, fails at the greatest `int`, `n = 2 ^ 63 - 1 = 9223372036854775807`: the
truncated binary logarithm of `n` is 62, but `float64(n)` is `2 ^ 63`, of which `math.Log2` is
exactly 63, so that on every runtime the inner bound is 63 and the inner body runs `n * 63`
times, not `n * 62`. -/
theorem C6_counterexample :
    (2 : Int) ^ 62 ≤ 9223372036854775807 ∧ (9223372036854775807 : Int) < 2 ^ 63 ∧
      Nat.log2 (9223372036854775807 : Int).toNat = 62 ∧
      float64 9223372036854775807 = 9223372036854775808 ∧
      (∀ (rt : Runtime) (w : List Event), innerBound rt 9223372036854775807 = 63 ∧
        (doSomeThingOne rt 9223372036854775807 w).bodyRuns = 9223372036854775807 * 63 ∧
        (doSomeThingOne rt 9223372036854775807 w).bodyRuns ≠
          (9223372036854775807 : Int).toNat * Nat.log2 (9223372036854775807 : Int).toNat) := by
  have hlog : Nat.log2 (9223372036854775807 : Int).toNat = 62 :=
    log2_of_bounds (by norm_num) (by norm_num)
  have hf : float64 9223372036854775807 = 9223372036854775808 := by
    have h1 : (9223372036854775807 : Int) = ((2 ^ 63 - 1 : Nat) : Int) := by norm_num
    rw [h1, float64_of_nat, roundToFloat64_maxInt]
    norm_num
  refine ⟨by norm_num, by norm_num, hlog, hf, fun rt w => ?_⟩
  simp only [doSomeThingOne_eq, innerBound_maxInt, hlog]
  exact ⟨trivial, by decide, by decide⟩

/-- C7. Function `doSomeThingOne` produces no output and has no effect a client can observe:
its loops, from any values of their variables, leave the events as they were, so that for every
count and whatever happened before, the response and the log after the call are those before
it. For every request whose form parsing succeeds, the response written by `handler` is the
response written by the handler without the call `doSomeThingOne(10000)`, which does exactly
what `handler` does apart from the call. -/
theorem C7_busy_loop_unobservable (rt : Runtime) (r : Request) (h : r.parseErr = none) :
    (∀ (inner : Int) (s : InnerVars), ((innerLoop inner).run s).events = s.events) ∧
      (∀ (times inner : Int) (s : OuterVars),
        ((outerLoop times inner).run s).events = s.events) ∧
      (∀ (n : Int) (w : List Event), (doSomeThingOne rt n w).events = w ∧
        response (OuterVars.returned n (doSomeThingOne rt n w)) = response w ∧
        logged (OuterVars.returned n (doSomeThingOne rt n w)) = logged w) ∧
      response (handler rt r) = response (handlerWithoutBusyLoop rt r) ∧
      handlerWithoutBusyLoop rt r = (handler rt r).filter (fun ev => !ev.isBusyLoop) := by
  refine ⟨innerLoop_events, outerLoop_events, fun n w => ?_, ?_, ?_⟩
  · have hob := returned_observed n (doSomeThingOne rt n w)
    rw [doSomeThingOne_events] at hob
    exact ⟨doSomeThingOne_events rt n w, hob⟩
  · have hob := (returned_observed 10000 (doSomeThingOne rt 10000 [Event.Println r.Form])).1
    rw [doSomeThingOne_events] at hob
    rw [handler, handlerWithoutBusyLoop, h]
    show response (OuterVars.returned 10000 (doSomeThingOne rt 10000 [Event.Println r.Form])
        ++ [Event.genSomeBytes genSomeBytes, Event.ReadAll genSomeBytes]
        ++ writeResult (ReadAll rt genSomeBytes)) =
      response ([Event.Println r.Form]
        ++ [Event.genSomeBytes genSomeBytes, Event.ReadAll genSomeBytes]
        ++ writeResult (ReadAll rt genSomeBytes))
    rw [response_append, response_append, hob, ← response_append, ← response_append]
  · rw [handler_of_ok rt r h, handlerWithoutBusyLoop_of_ok rt r h]
    simp only [List.filter, Event.isBusyLoop, Bool.not_true, Bool.not_false]

/-- C7 at the request `GET /test?x=1`. -/
theorem C7_busy_loop_unobservable_witness :
    sampleRequest.parseErr = none ∧
      (∀ (inner : Int) (s : InnerVars), ((innerLoop inner).run s).events = s.events) ∧
      (∀ (times inner : Int) (s : OuterVars),
        ((outerLoop times inner).run s).events = s.events) ∧
      (∀ (n : Int) (w : List Event), (doSomeThingOne sampleRuntime n w).events = w ∧
        response (OuterVars.returned n (doSomeThingOne sampleRuntime n w)) = response w ∧
        logged (OuterVars.returned n (doSomeThingOne sampleRuntime n w)) = logged w) ∧
      response (handler sampleRuntime sampleRequest) =
        response (handlerWithoutBusyLoop sampleRuntime sampleRequest) ∧
      handlerWithoutBusyLoop sampleRuntime sampleRequest =
        (handler sampleRuntime sampleRequest).filter (fun ev => !ev.isBusyLoop) :=
  ⟨rfl, C7_busy_loop_unobservable sampleRuntime sampleRequest rfl⟩

/-- C8. Form-parsing failure is the only error path of `handler`: reading a buffer to its end
never yields an error, `ioutil.ReadAll` on the buffer of `genSomeBytes` returns all its bytes
and `nil`, so once parsing has succeeded the branch that writes the text of a read error is not
taken: the only call `w.Write` carries the generated sequence. -/
theorem C8_read_never_fails (rt : Runtime) (r : Request) (h : r.parseErr = none) :
    (∀ b : Buffer, (ReadAll rt b).2 = none) ∧
      ReadAll rt genSomeBytes = (genSomeBytes.unread, none) ∧
      writeResult (ReadAll rt genSomeBytes) = [Event.Write genSomeBytes.unread] ∧
      handler rt r = [Event.Println r.Form, Event.doSomeThingOne 10000 10000 130000,
        Event.genSomeBytes genSomeBytes, Event.ReadAll genSomeBytes,
        Event.Write genSomeBytes.unread] := by
  refine ⟨fun b => by rw [ReadAll_eq], ReadAll_eq rt genSomeBytes, ?_, handler_of_ok rt r h⟩
  rw [ReadAll_eq, writeResult]

/-- C8 at the request `GET /test?x=1`. -/
theorem C8_read_never_fails_witness :
    sampleRequest.parseErr = none ∧
      (∀ b : Buffer, (ReadAll sampleRuntime b).2 = none) ∧
      ReadAll sampleRuntime genSomeBytes = (genSomeBytes.unread, none) ∧
      writeResult (ReadAll sampleRuntime genSomeBytes) = [Event.Write genSomeBytes.unread] ∧
      handler sampleRuntime sampleRequest =
        [Event.Println sampleRequest.Form,
          Event.doSomeThingOne 10000 10000 130000,
          Event.genSomeBytes genSomeBytes, Event.ReadAll genSomeBytes,
          Event.Write genSomeBytes.unread] :=
  ⟨rfl, C8_read_never_fails sampleRuntime sampleRequest rfl⟩

/-- C10. Every loop of the program ends, from any values of its variables: after a number of
iterations bounded by the distance of the counter to the bound, the condition fails. Each
iteration adds one to the counter, which stays below a bound that no iteration changes.
`doSomeThingOne` returns for every count `times` (after `times` outer iterations, none when
`times ≤ 0`), and for `times ≤ 0` it executes no outer iteration whatever the inner bound is;
`genSomeBytes` returns after 19999 iterations. The events `w` at the call are any. -/
theorem C10_loops_terminate (rt : Runtime) (times inner : Int) (w : List Event) :
    (∀ s, ∃ k, k ≤ (times - s.i).toNat ∧
        (outerLoop times inner).cond ((outerLoop times inner).next^[k] s) = false ∧
        (outerLoop times inner).run s = (outerLoop times inner).next^[k] s) ∧
      (∀ s, ∃ k, k ≤ (inner - s.j).toNat ∧
        (innerLoop inner).cond ((innerLoop inner).next^[k] s) = false ∧
        (innerLoop inner).run s = (innerLoop inner).next^[k] s) ∧
      (∀ s, ∃ k, k ≤ 20000 - s.i ∧
        genSomeBytesLoop.cond (genSomeBytesLoop.next^[k] s) = false ∧
        genSomeBytesLoop.run s = genSomeBytesLoop.next^[k] s) ∧
      (∀ s, (outerLoop times inner).cond s = true →
        ((outerLoop times inner).next s).i = s.i + 1 ∧ (s.i : Int) < times) ∧
      (∀ s, (innerLoop inner).cond s = true →
        ((innerLoop inner).next s).j = s.j + 1 ∧ (s.j : Int) < inner) ∧
      (∀ s, genSomeBytesLoop.cond s = true →
        (genSomeBytesLoop.next s).i = s.i + 1 ∧ s.i < 20000) ∧
      doSomeThingOne rt times w =
        (outerLoop times (innerBound rt times)).next^[times.toNat]
          { i := 0, bodyRuns := 0, events := w } ∧
      (doSomeThingOne rt times w).i = times.toNat ∧
      genSomeBytesLoop.run { i := 1, buff := Buffer.zero } =
        genSomeBytesLoop.next^[19999] { i := 1, buff := Buffer.zero } ∧
      (times ≤ 0 →
        (outerLoop times inner).cond { i := 0, bodyRuns := 0, events := w } = false ∧
        (outerLoop times inner).run { i := 0, bodyRuns := 0, events := w } =
          { i := 0, bodyRuns := 0, events := w } ∧
        doSomeThingOne rt times w = { i := 0, bodyRuns := 0, events := w }) := by
  refine ⟨?_, ?_, ?_, ?_, ?_, ?_, ?_, ?_, ?_, ?_⟩
  · intro s
    obtain ⟨k, hk, _, hc, hr⟩ := (outerLoop times inner).terminates s
    exact ⟨k, hk, hc, hr⟩
  · intro s
    obtain ⟨k, hk, _, hc, hr⟩ := (innerLoop inner).terminates s
    exact ⟨k, hk, hc, hr⟩
  · intro s
    obtain ⟨k, hk, _, hc, hr⟩ := genSomeBytesLoop.terminates s
    exact ⟨k, hk, hc, hr⟩
  · intro s hs
    exact ⟨rfl, of_decide_eq_true hs⟩
  · intro s hs
    exact ⟨rfl, of_decide_eq_true hs⟩
  · intro s hs
    exact ⟨rfl, of_decide_eq_true hs⟩
  · rw [doSomeThingOne_eq, outerLoop_iterate]
  · rw [doSomeThingOne_eq]
  · apply genSomeBytesLoop.run_eq_iterate
    · intro j hj
      rw [genSomeBytesLoop_cond_iterate]
      exact decide_eq_true (by omega)
    · rw [genSomeBytesLoop_cond_iterate]
      exact decide_eq_false (by omega)
  · intro h0
    have hc : (outerLoop times inner).cond { i := 0, bodyRuns := 0, events := w } = false :=
      decide_eq_false (by show ¬ (((0 : Nat) : Int) < times); omega)
    refine ⟨hc, (outerLoop times inner).run_of_not_cond _ hc, ?_⟩
    rw [doSomeThingOne_eq, Int.toNat_of_nonpos h0, Nat.zero_mul]

end GoServer
